import Mathlib

/-!
Verification development for the constraint-extraction layer of the `tig`
symbolic-execution pipeline (`tig/symbolic_execution.py`).

The third-party collaborators (the angr engine, the claripy solver, CFG
recovery) are out of scope of the specification and are embedded as oracles:
a `Project` carries the engine entry points the source calls
(`factory.blank_state`, one `simgr.step`, `CFGFast` function names,
`explore`), and a `SimState` carries the solver entry points
(`solver.min` / `solver.max` / `solver.eval`, each returning `none` when the
underlying query would raise).  Claripy ASTs are embedded as leaf
bitvector terms (concrete `bvv` / symbolic `bvs`) together with the boolean
comparison nodes the source builds; claripy's eager concrete folding
(a comparison of two concrete values yields a concrete boolean) is mirrored
by the smart constructors `bvEq`, `bvUle`, `bvUlt`.  Claripy bitvector
comparisons are unsigned by default, so `Nat` models the values.
-/

/-- Claripy bitvector AST, restricted to the leaf forms the source
manipulates: a concrete value (`claripy.BVV`) or a named symbol
(`claripy.BVS`, as created by `make_static_memory_symbolic`, or an opaque
register expression held by a state). -/
inductive BV where
  | bvv (val : Nat) (width : Nat)
  | bvs (name : String) (width : Nat)
deriving DecidableEq

/-- Claripy boolean AST: a concrete boolean (`claripy.true` / `claripy.false`,
the result of eagerly folded concrete comparisons), the comparison nodes
built by `reg_constraints` (`e == n`, `n <= e`, `e < n`, unsigned), or an
opaque symbolic predicate produced by the engine. -/
inductive BoolAst where
  | boolv (b : Bool)
  | eqC (e : BV) (n : Nat)
  | uleC (n : Nat) (e : BV)
  | ultC (e : BV) (n : Nat)
  | sym (name : String)
deriving DecidableEq

/-- Claripy `reg == n`: eagerly folded to a concrete boolean when `reg` is
concrete (claripy evaluates operations on concrete operands on
construction), a symbolic equality node otherwise.  In every use the
integer operand comes from `solver.min`/`solver.max` of `reg` and hence
fits `reg`'s width. -/
def bvEq : BV → Nat → BoolAst
  | BV.bvv v _, n => BoolAst.boolv (v == n)
  | e, n => BoolAst.eqC e n

/-- Claripy `n <= reg` (unsigned), eagerly folded when `reg` is concrete. -/
def bvUle : Nat → BV → BoolAst
  | n, BV.bvv v _ => BoolAst.boolv (n ≤ v)
  | n, e => BoolAst.uleC n e

/-- Claripy `reg < n` (unsigned), eagerly folded when `reg` is concrete. -/
def bvUlt : BV → Nat → BoolAst
  | BV.bvv v _, n => BoolAst.boolv (v < n)
  | e, n => BoolAst.ultC e n

/-- Claripy `Bool.is_true`: true exactly for the concrete literal `true`
(syntactic tautology check, no solver call). -/
def BoolAst.is_true : BoolAst → Bool
  | BoolAst.boolv b => b
  | _ => false

/-- The `ConstraintType` enumeration of the source (values 0..4). -/
inductive ConstraintType where
  | Unknown
  | BranchTrue
  | BranchFalse
  | DeadEnd
  | Unconstrained
deriving DecidableEq

/-- The `Constraint` record: classification tag, stored predicate list,
optional successor address. -/
structure Constraint where
  type : ConstraintType
  constraints : List BoolAst
  next_addr : Option Nat
deriving DecidableEq

/-- `Constraint.__init__`: the `constraints` argument is either a single
claripy boolean or a list of them (the `Union` type of the source, modelled
as a sum); a single boolean is wrapped into a list, and every predicate
with `is_true()` is dropped before storing. -/
def Constraint.init (t : ConstraintType) (cs : BoolAst ⊕ List BoolAst)
    (next_addr : Option Nat) : Constraint :=
  { type := t
    constraints :=
      (match cs with
        | Sum.inl b => [b]
        | Sum.inr l => l).filter (fun b => !b.is_true)
    next_addr := next_addr }

/-- `Constraint.add_constraints`: `self.constraints += l`, appending the
argument verbatim (no filtering in the source). -/
def Constraint.add_constraints (c : Constraint) (l : List BoolAst) : Constraint :=
  { c with constraints := c.constraints ++ l }

/-- An angr `SimState`: register plugin (attribute lookup by name), a
chunk-granular memory (most recent store first), the accumulated
`solver.constraints` list, dynamic attribute lookup used by `solve_opt`
(`getattr(state, ...)`, `none` models `AttributeError`), and the solver
oracles.  Each solver oracle returns `none` when the query would raise
(unsolvable or timeout). -/
structure SimState where
  regs : List (String × BV)
  mem : List (Nat × BV)
  solverConstraints : List BoolAst
  attrs : String → Option BV
  solverMin : BV → Option Nat
  solverMax : BV → Option Nat
  solverEval : BV → Option Nat

/-- `getattr(state.regs, name)`: `none` models an `AttributeError`. -/
def lookupReg (s : SimState) (r : String) : Option BV :=
  (s.regs.find? (fun p => p.1 == r)).map (fun p => p.2)

/-- `state.memory` read at a chunk base address. -/
def memLookup (s : SimState) (a : Nat) : Option BV :=
  (s.mem.find? (fun p => p.1 == a)).map (fun p => p.2)

/-- `solve_opt`: try `state.solver.eval(getattr(state, to_solve))` and
return `default` if any error occurs (the bare `except` also covers a
failing attribute lookup). -/
def solve_opt (state : SimState) (to_solve : String) (default : Nat) : Nat :=
  match state.attrs to_solve with
  | none => default
  | some e =>
    match state.solverEval e with
    | none => default
    | some v => v

/-- An instruction as consumed by `reg_constraints`.
Modelled from the spec: `tig.bininfo` is not under `src/`; §3 describes a
basic block as an ordered sequence of instructions, "each instruction
exposing the set of register identifiers it writes". -/
structure Instruction where
  regs_written : List String
deriving DecidableEq

/-- A basic block descriptor.
Modelled from the spec: `tig.bininfo` is not under `src/`; §3 describes a
Basic Block as "start address, ordered sequence of instructions". The
source reads `bb.start_vaddr` and iterates `for i in bb`. -/
structure BasicBlock where
  start_vaddr : Nat
  instructions : List Instruction
deriving DecidableEq

/-- A function descriptor.
Modelled from the spec: `tig.bininfo` is not under `src/`; §3 describes a
Function as "entry address, set of known return addresses, name". The
source reads `func.entry_point`, `func.return_addrs`, `func.name`. -/
structure Function where
  entry_point : Nat
  return_addrs : List Nat
  name : String
deriving DecidableEq

/-- The `regs_written` set accumulated by the first loop of
`reg_constraints` (`regs_written |= set(i.regs_written)`); a Python set,
so only membership matters and duplicates are dropped. -/
def BasicBlock.regs_written (bb : BasicBlock) : List String :=
  (bb.instructions.flatMap (fun i => i.regs_written)).dedup

/-- The per-register predicate group built by the body of the second loop
of `reg_constraints`: equality when the feasible minimum and maximum
coincide, otherwise a lower bound plus an upper bound guarded by the
`max < 2**32` sentinel. -/
def regBlock (e : BV) (mn mx : Nat) : List BoolAst :=
  if mn = mx then [bvEq e mn]
  else bvUle mn e :: (if mx < 2 ^ 32 then [bvUlt e mx] else [])

/-- The second loop of `reg_constraints`, over the written registers:
`getattr(state.regs, reg)` then `state.solver.min` then `state.solver.max`
(in that evaluation order), appending each register's predicate group to
`out`.  A `none` anywhere models the uncaught Python exception
propagating out of the loop: there is no `try` in the source. -/
def reg_constraints_loop (s : SimState) : List String → Option (List BoolAst)
  | [] => some []
  | r :: rs =>
    match lookupReg s r with
    | none => none
    | some e =>
      match s.solverMin e with
      | none => none
      | some mn =>
        match s.solverMax e with
        | none => none
        | some mx =>
          match reg_constraints_loop s rs with
          | none => none
          | some rest => some (regBlock e mn mx ++ rest)

/-- `reg_constraints`: run the register loop over the block's written
registers and filter out syntactic tautologies
(`[x for x in out if not x.is_true()]`).  `none` models an uncaught
exception from a solver `min`/`max` query (or a missing register
attribute) propagating to the caller. -/
def reg_constraints (s : SimState) (bb : BasicBlock) : Option (List BoolAst) :=
  (reg_constraints_loop s bb.regs_written).map
    (fun out => out.filter (fun x => !x.is_true))

/-- A section of the loaded binary (`min_addr`, `max_addr` as exposed by
`project.loader.main_object.sections_map`). -/
structure Section where
  min_addr : Nat
  max_addr : Nat
deriving DecidableEq

/-- The hexadecimal digit characters used by Python's `hex` (lowercase). -/
def hexChar : Nat → Char
  | 0 => '0' | 1 => '1' | 2 => '2' | 3 => '3'
  | 4 => '4' | 5 => '5' | 6 => '6' | 7 => '7'
  | 8 => '8' | 9 => '9' | 10 => 'a' | 11 => 'b'
  | 12 => 'c' | 13 => 'd' | 14 => 'e' | 15 => 'f'
  | _ => '?'

/-- Left inverse of `hexChar` on digits below 16. -/
def hexVal : Char → Nat
  | '0' => 0 | '1' => 1 | '2' => 2 | '3' => 3
  | '4' => 4 | '5' => 5 | '6' => 6 | '7' => 7
  | '8' => 8 | '9' => 9 | 'a' => 10 | 'b' => 11
  | 'c' => 12 | 'd' => 13 | 'e' => 14 | 'f' => 15
  | _ => 16

/-- Base-16 digits of `n`, least significant first, driven by explicit
fuel so the definition is structural (fuel `n` suffices: the argument at
least halves each round). -/
def hexDigitsGo : Nat → Nat → List Nat
  | 0, _ => []
  | fuel + 1, n => if n = 0 then [] else n % 16 :: hexDigitsGo fuel (n / 16)

/-- Base-16 digits of `n`, least significant first (empty for 0). -/
def hexDigits (n : Nat) : List Nat :=
  hexDigitsGo n n

/-- Reconstruction of a number from its little-endian base-16 digits;
left inverse of `hexDigits`. -/
def unhex : List Nat → Nat
  | [] => 0
  | d :: t => d + 16 * unhex t

/-- Python's `hex(n)` for a nonnegative integer: `0x` followed by the
base-16 digits, most significant first, lowercase; `hex(0) = "0x0"`. -/
def hexRepr (n : Nat) : String :=
  "0x" ++ String.mk (if n = 0 then ['0'] else (hexDigits n).reverse.map hexChar)

/-- Python's `range(lo, hi, step)` for a positive step, implemented with
`hi - lo` fuel (sufficient since each kept element advances `cur` by at
least one).  The source only calls this with the positive `chunk_size`
(Python `range` raises for step 0). -/
def rangeGo (hi step : Nat) : Nat → Nat → List Nat
  | 0, _ => []
  | fuel + 1, cur => if cur < hi then cur :: rangeGo hi step fuel (cur + step) else []

/-- Python's `range(lo, hi, step)` as a list. -/
def rangeList (lo hi step : Nat) : List Nat :=
  rangeGo hi step (hi - lo) lo

/-- One of the two section loops of `make_static_memory_symbolic`: for each
address stepping by `chunk_size` through the section, store a fresh
symbolic value of width `chunk_size * 8` bits named `pre ++ hex(addr)`
(`state.solver.BVS(sym_name, chunk_size * 8)`; claripy appends a
uniquifying counter to the name unless `explicit_name` is set — the
address-derived part modelled here is what the source controls). -/
def symbolize_range (s : SimState) (pre : String) (lo hi chunk_size : Nat) : SimState :=
  (rangeList lo hi chunk_size).foldl
    (fun st addr =>
      { st with mem := (addr, BV.bvs (pre ++ hexRepr addr) (chunk_size * 8)) :: st.mem })
    s

/-- An angr `Project`, carrying the engine oracles the source calls:
the section map of the loaded binary, `factory.blank_state(addr)`, one
`simgr.step()` on a manager seeded with a single state
(`save_unconstrained=True`), the names known to `CFGFast().kb.functions`,
and `simgr.explore` under `LoopSeer(cfg, bound)` and `num_find`, returning
the `found` stash.  The engine internals are out of scope of the spec and
left abstract. -/
structure Stashes where
  active : List SimState
  deadended : List SimState
  unconstrained : List SimState
  pruned : List SimState
  unsat : List SimState

structure Project where
  sections_map : List (String × Section)
  blank_state : Nat → SimState
  step : SimState → Stashes
  cfgFunctionNames : List String
  explore : SimState → List String → Nat → List Nat → Nat → List SimState

/-- `project.loader.main_object.sections_map[name]`; `none` models the
`KeyError` Python raises for a missing section. -/
def sectionsMap (p : Project) (name : String) : Option Section :=
  (p.sections_map.find? (fun q => q.1 == name)).map (fun q => q.2)

/-- `make_static_memory_symbolic`: look up the `.data` and `.bss` sections
(both lookups precede any store in the source, lines 162-163), then
overwrite both ranges with address-named symbolic chunks and return the
mutated state.  The result pairs the state as mutated so far with an
optional raised error: a missing section raises `KeyError` before any
store, so the state component is the untouched input in that case. -/
def make_static_memory_symbolic (project : Project) (state : SimState)
    (chunk_size : Nat := 4) : SimState × Option String :=
  match sectionsMap project ".data" with
  | none => (state, some "KeyError: .data")
  | some data_section =>
    match sectionsMap project ".bss" with
    | none => (state, some "KeyError: .bss")
    | some bss_section =>
      let st1 := symbolize_range state "data_"
        data_section.min_addr data_section.max_addr chunk_size
      let st2 := symbolize_range st1 "bss_"
        bss_section.min_addr bss_section.max_addr chunk_size
      (st2, none)

/-- `state.solver.add(c)` for each input constraint, in order. -/
def addInputConstraints (s : SimState) (l : List BoolAst) : SimState :=
  l.foldl (fun st c => { st with solverConstraints := st.solverConstraints ++ [c] }) s

/-- `exec_bb`: seed a blank state at the block's start address, assert the
input constraints, set the (observability-only) write breakpoints, build a
manager with `save_unconstrained=True`, advance one step — and return `[]`:
the whole classification block (source lines 253-290) is a string literal,
so no `Constraint` record is ever built. -/
def exec_bb (p : Project) (bb : BasicBlock) (input_constraints : List BoolAst) :
    List Constraint :=
  let state := p.blank_state bb.start_vaddr
  let state := addInputConstraints state input_constraints
  let _stashes := p.step state
  []

/-- `exec_func`: seed a blank state at the entry point, symbolize static
memory with chunk size 4 (a missing section raises out of `exec_func`),
recover the CFG and look the function up by name — printing and returning
`[]` when absent — then explore with `LoopSeer(cfg, bound=5)` toward the
return addresses with `num_find=100`, returning each found state's full
`solver.constraints` list.  The `regions` / `in_regions` bindings of the
source are dead (the `avoid` argument is commented out) and the
breakpoint actions only print. -/
def exec_func (p : Project) (func : Function) :
    Except String (List (List BoolAst)) :=
  let state := p.blank_state func.entry_point
  match make_static_memory_symbolic p state 4 with
  | (_, some e) => Except.error e
  | (st, none) =>
    if func.name ∈ p.cfgFunctionNames then
      Except.ok ((p.explore st p.cfgFunctionNames 5 func.return_addrs 100).map
        (fun s => s.solverConstraints))
    else
      Except.ok []

/-! Concrete instances used by the counterexample and witness theorems
below.  They instantiate the engine and solver oracles with small total
functions consistent with the real collaborators' documented behavior. -/

/-- A blank state with empty plugins and failing oracles. -/
def emptyState : SimState :=
  { regs := []
    mem := []
    solverConstraints := []
    attrs := fun _ => none
    solverMin := fun _ => none
    solverMax := fun _ => none
    solverEval := fun _ => none }

/-- A conditional-branch basic block at address 4096 writing `a0`. -/
def branchBB : BasicBlock :=
  { start_vaddr := 4096, instructions := [{ regs_written := ["a0"] }] }

/-- A project whose single step forks the seed state into exactly two
feasible active successors (a two-way conditional branch). -/
def branchProj : Project :=
  { sections_map := []
    blank_state := fun _ => emptyState
    step := fun st =>
      { active :=
          [{ st with solverConstraints := st.solverConstraints ++ [BoolAst.sym "cond"] },
           { st with solverConstraints := st.solverConstraints ++ [BoolAst.sym "not_cond"] }]
        deadended := []
        unconstrained := []
        pruned := []
        unsat := [] }
    cfgFunctionNames := []
    explore := fun _ _ _ _ _ => [] }

/-- A state holding a symbolic register `a0` whose solver min query
raises (models an unsolvable or timed-out query). -/
def failState : SimState :=
  { emptyState with regs := [("a0", BV.bvs "reg_a0" 32)] }

/-- A one-instruction block at address 0 writing `a0`. -/
def failBB : BasicBlock :=
  { start_vaddr := 0, instructions := [{ regs_written := ["a0"] }] }

/-- A state holding the concrete value 5 in `a0`; the solver oracles
evaluate concrete bitvectors to their value, as the real solver does. -/
def concreteState : SimState :=
  { emptyState with
    regs := [("a0", BV.bvv 5 32)]
    solverMin := fun e => match e with | BV.bvv v _ => some v | _ => none
    solverMax := fun e => match e with | BV.bvv v _ => some v | _ => none }

/-- A one-instruction block at address 0 writing `a0`. -/
def concreteBB : BasicBlock :=
  { start_vaddr := 0, instructions := [{ regs_written := ["a0"] }] }

/-- A state holding a symbolic `a0` ranging over `[1, 10]`. -/
def symRangeState : SimState :=
  { emptyState with
    regs := [("a0", BV.bvs "sa0" 32)]
    solverMin := fun _ => some 1
    solverMax := fun _ => some 10 }

/-- A one-instruction block at address 0 writing `a0`. -/
def symRangeBB : BasicBlock :=
  { start_vaddr := 0, instructions := [{ regs_written := ["a0"] }] }

/-- A state whose `addr` attribute is the symbol `ip`, which the solver
evaluates to 4660. -/
def evalOkState : SimState :=
  { emptyState with
    attrs := fun a => if a = "addr" then some (BV.bvs "ip" 32) else none
    solverEval := fun e => if e = BV.bvs "ip" 32 then some 4660 else none }

/-- A state whose `addr` attribute exists but whose solver evaluation
raises. -/
def evalFailState : SimState :=
  { emptyState with
    attrs := fun a => if a = "addr" then some (BV.bvs "ip" 32) else none }

/-- A project with both static sections but whose CFG recovered only
`main`. -/
def lookupProj : Project :=
  { sections_map := [(".data", { min_addr := 0, max_addr := 8 }),
                     (".bss", { min_addr := 100, max_addr := 108 })]
    blank_state := fun _ => emptyState
    step := fun _ => { active := [], deadended := [], unconstrained := [], pruned := [], unsat := [] }
    cfgFunctionNames := ["main"]
    explore := fun _ _ _ _ _ => [] }

/-- A function descriptor absent from `lookupProj`'s recovered CFG. -/
def missingFunc : Function :=
  { entry_point := 0, return_addrs := [64], name := "helper" }

/-- A terminal state carrying one accumulated path constraint. -/
def foundState : SimState :=
  { emptyState with solverConstraints := [BoolAst.sym "path_cond"] }

/-- A project whose exploration oracle yields `foundState` exactly when
invoked with loop bound 5 and path cap 100 (so reaching it in a result
demonstrates the configured bounds). -/
def exploreProj : Project :=
  { sections_map := [(".data", { min_addr := 0, max_addr := 4 }),
                     (".bss", { min_addr := 4, max_addr := 8 })]
    blank_state := fun _ => emptyState
    step := fun _ => { active := [], deadended := [], unconstrained := [], pruned := [], unsat := [] }
    cfgFunctionNames := ["main"]
    explore := fun _ _ bound _ num_find =>
      if bound = 5 then if num_find = 100 then [foundState] else [] else [] }

/-- The function descriptor `main`, present in `exploreProj`'s CFG. -/
def mainFunc : Function :=
  { entry_point := 0, return_addrs := [64], name := "main" }

/-- A project lacking a `.data` section. -/
def noDataProj : Project :=
  { sections_map := [(".bss", { min_addr := 0, max_addr := 4 })]
    blank_state := fun _ => emptyState
    step := fun _ => { active := [], deadended := [], unconstrained := [], pruned := [], unsat := [] }
    cfgFunctionNames := []
    explore := fun _ _ _ _ _ => [] }

/-- A project with a two-chunk `.data` section and a two-chunk `.bss`
section, used to exercise the memory symbolizer. -/
def memProj : Project :=
  { sections_map := [(".data", { min_addr := 0, max_addr := 8 }),
                     (".bss", { min_addr := 100, max_addr := 108 })]
    blank_state := fun _ => emptyState
    step := fun _ => { active := [], deadended := [], unconstrained := [], pruned := [], unsat := [] }
    cfgFunctionNames := []
    explore := fun _ _ _ _ _ => [] }

/-! Theorems.  Each claim of the specification gets one theorem; helper
lemmas are shared. -/

/-- C5: for every project, basic block, and input-constraint list,
`exec_bb` returns the empty list: the record-construction and
classification code is inert (a string literal in the source), so no
Constraint record is produced at block level regardless of the engine's
post-step stashes. -/
theorem exec_bb_always_empty (p : Project) (bb : BasicBlock)
    (input_constraints : List BoolAst) :
    exec_bb p bb input_constraints = [] := rfl

/-- C1: the code contradicts its own docstring and the spec's intended
contract.  Stepping a two-way conditional branch block whose step
produces exactly two feasible active successors still yields no
Constraint records at all — `exec_bb` returns `[]` because the
classification block of the source is a string literal (lines 253-290),
so no `BranchTrue`/`BranchFalse` records are ever constructed. -/
theorem exec_bb_two_active_no_records :
    (branchProj.step (branchProj.blank_state branchBB.start_vaddr)).active.length = 2 ∧
    exec_bb branchProj branchBB [] = [] :=
  ⟨rfl, rfl⟩

/-- C2 counterexample: `add_constraints` appends verbatim, so a record
can come to store a syntactic tautology after construction, refuting the
claimed invariant. -/
theorem add_constraints_stores_tautology :
    BoolAst.boolv true ∈
      ((Constraint.init ConstraintType.Unknown (Sum.inr []) none).add_constraints
        [BoolAst.boolv true]).constraints ∧
    (BoolAst.boolv true).is_true = true := by
  decide

/-- C2 amended: the tautology filter applies at construction time only —
a freshly constructed record stores no syntactic tautology, while
`add_constraints` appends its argument verbatim (the in-repo callers pass
pre-filtered lists). -/
theorem constraint_filter_at_init_only (t : ConstraintType)
    (cs : BoolAst ⊕ List BoolAst) (na : Option Nat) (l : List BoolAst) :
    ((Constraint.init t cs na).constraints.all (fun b => !b.is_true) = true) ∧
    ((Constraint.init t cs na).add_constraints l).constraints =
      (Constraint.init t cs na).constraints ++ l := by
  refine ⟨?_, rfl⟩
  simp only [Constraint.init, List.all_eq_true]
  intro b hb
  exact (List.mem_filter.mp hb).2

/-- C7: `solve_opt` returns the solver's evaluation of the requested
state attribute when the query succeeds, and returns the caller-supplied
default — never raising — when the evaluation (or the attribute lookup
itself, both covered by the bare `except`) fails. -/
theorem solve_opt_eval_or_default (s : SimState) (to_solve : String) (d : Nat) :
    (∀ e v, s.attrs to_solve = some e → s.solverEval e = some v →
      solve_opt s to_solve d = v) ∧
    (∀ e, s.attrs to_solve = some e → s.solverEval e = none →
      solve_opt s to_solve d = d) ∧
    (s.attrs to_solve = none → solve_opt s to_solve d = d) := by
  refine ⟨?_, ?_, ?_⟩
  · intro e v he hv
    simp [solve_opt, he, hv]
  · intro e he hv
    simp [solve_opt, he, hv]
  · intro he
    simp [solve_opt, he]

/-- Witness for C7: on a state whose `addr` attribute evaluates to 4660
the evaluation is returned, and on a state whose evaluation raises the
default 7 is returned. -/
theorem solve_opt_eval_or_default_witness :
    solve_opt evalOkState "addr" 7 = 4660 ∧ solve_opt evalFailState "addr" 7 = 7 :=
  ⟨(solve_opt_eval_or_default evalOkState "addr" 7).1 (BV.bvs "ip" 32) 4660 rfl rfl,
   (solve_opt_eval_or_default evalFailState "addr" 7).2.1 (BV.bvs "ip" 32) rfl rfl⟩

/-- C3 counterexample: on a state whose solver min query raises for the
written register, `reg_constraints` propagates the exception to its
caller (result `none`) instead of substituting a default: the source has
no `try` around the min/max queries. -/
theorem reg_constraints_propagates_exception :
    failState.solverMin (BV.bvs "reg_a0" 32) = none ∧
    reg_constraints failState failBB = none :=
  ⟨rfl, rfl⟩

/-- If the register lookup or min/max query chain fails for some written
register, the whole register loop fails (the exception escapes). -/
theorem reg_constraints_loop_none_of_fail (s : SimState) (l : List String)
    (r : String) (hr : r ∈ l)
    (hf : ((lookupReg s r).bind fun e =>
      (s.solverMin e).bind fun _ => s.solverMax e) = none) :
    reg_constraints_loop s l = none := by
  induction l with
  | nil => cases hr
  | cons a rs ih =>
    rcases List.mem_cons.mp hr with h | h
    · subst h
      cases hle : lookupReg s r with
      | none => simp [reg_constraints_loop, hle]
      | some e =>
        cases hmn : s.solverMin e with
        | none => simp [reg_constraints_loop, hle, hmn]
        | some mn =>
          cases hmx : s.solverMax e with
          | none => simp [reg_constraints_loop, hle, hmn, hmx]
          | some mx => simp [hle, hmn, hmx] at hf
    · have hrec := ih h
      cases hle : lookupReg s a with
      | none => simp [reg_constraints_loop, hle]
      | some e =>
        cases hmn : s.solverMin e with
        | none => simp [reg_constraints_loop, hle, hmn]
        | some mn =>
          cases hmx : s.solverMax e with
          | none => simp [reg_constraints_loop, hle, hmn, hmx]
          | some mx => simp [reg_constraints_loop, hle, hmn, hmx, hrec]

/-- C3 amended: `reg_constraints` performs no local error handling — if a
solver min or max query (or the register attribute lookup) raises for any
register written in the block, the exception propagates to the caller
(result `none`) rather than being replaced by a default. -/
theorem reg_constraints_exception_escapes (s : SimState) (bb : BasicBlock)
    (r : String) (hr : r ∈ bb.regs_written)
    (hf : ((lookupReg s r).bind fun e =>
      (s.solverMin e).bind fun _ => s.solverMax e) = none) :
    reg_constraints s bb = none := by
  unfold reg_constraints
  rw [reg_constraints_loop_none_of_fail s bb.regs_written r hr hf]
  rfl

/-- Witness for the amended C3: the failing solver state of the
counterexample indeed drives `reg_constraints` to propagate. -/
theorem reg_constraints_exception_escapes_witness :
    reg_constraints failState failBB = none :=
  reg_constraints_exception_escapes failState failBB "a0" (by decide) rfl

/-- If the register loop succeeds and `r` is among the processed
registers, every predicate of `r`'s group appears in the loop output. -/
theorem reg_constraints_loop_mem (s : SimState) (l : List String)
    (out : List BoolAst) (hout : reg_constraints_loop s l = some out)
    (r : String) (hr : r ∈ l) (e : BV) (mn mx : Nat)
    (he : lookupReg s r = some e) (hmn : s.solverMin e = some mn)
    (hmx : s.solverMax e = some mx) :
    ∀ b ∈ regBlock e mn mx, b ∈ out := by
  induction l generalizing out with
  | nil => cases hr
  | cons a rs ih =>
    cases hle : lookupReg s a with
    | none => simp [reg_constraints_loop, hle] at hout
    | some ea =>
      cases hmna : s.solverMin ea with
      | none => simp [reg_constraints_loop, hle, hmna] at hout
      | some mna =>
        cases hmxa : s.solverMax ea with
        | none => simp [reg_constraints_loop, hle, hmna, hmxa] at hout
        | some mxa =>
          cases hrest : reg_constraints_loop s rs with
          | none => simp [reg_constraints_loop, hle, hmna, hmxa, hrest] at hout
          | some rest =>
            have hout2 : regBlock ea mna mxa ++ rest = out := by
              simpa [reg_constraints_loop, hle, hmna, hmxa, hrest] using hout
            rcases List.mem_cons.mp hr with h | h
            · subst h
              rw [hle] at he
              injection he with he
              subst he
              rw [hmna] at hmn
              injection hmn with hmn
              subst hmn
              rw [hmxa] at hmx
              injection hmx with hmx
              subst hmx
              intro b hb
              rw [← hout2]
              exact List.mem_append_left rest hb
            · intro b hb
              rw [← hout2]
              exact List.mem_append_right _ (ih rest hrest h b hb)

/-- Every predicate the register loop emits comes from the group of some
processed register whose lookups and solver queries succeeded. -/
theorem reg_constraints_loop_sources (s : SimState) (l : List String)
    (out : List BoolAst) (hout : reg_constraints_loop s l = some out) :
    ∀ b ∈ out, ∃ r ∈ l, ∃ e mn mx,
      lookupReg s r = some e ∧ s.solverMin e = some mn ∧
      s.solverMax e = some mx ∧ b ∈ regBlock e mn mx := by
  induction l generalizing out with
  | nil =>
    have : out = [] := by simpa [reg_constraints_loop] using hout.symm
    subst this
    intro b hb
    cases hb
  | cons a rs ih =>
    cases hle : lookupReg s a with
    | none => simp [reg_constraints_loop, hle] at hout
    | some ea =>
      cases hmna : s.solverMin ea with
      | none => simp [reg_constraints_loop, hle, hmna] at hout
      | some mna =>
        cases hmxa : s.solverMax ea with
        | none => simp [reg_constraints_loop, hle, hmna, hmxa] at hout
        | some mxa =>
          cases hrest : reg_constraints_loop s rs with
          | none => simp [reg_constraints_loop, hle, hmna, hmxa, hrest] at hout
          | some rest =>
            have hout2 : regBlock ea mna mxa ++ rest = out := by
              simpa [reg_constraints_loop, hle, hmna, hmxa, hrest] using hout
            intro b hb
            rw [← hout2] at hb
            rcases List.mem_append.mp hb with h | h
            · exact ⟨a, List.mem_cons_self a rs, ea, mna, mxa, hle, hmna, hmxa, h⟩
            · rcases ih rest hrest b h with ⟨r, hrl, e, mn, mx, h1, h2, h3, h4⟩
              exact ⟨r, List.mem_cons_of_mem a hrl, e, mn, mx, h1, h2, h3, h4⟩

/-- C4 counterexample: a register written by the block whose state value
is the concrete 5 has solver minimum = maximum = 5, yet the output of
`reg_constraints` is empty — the equality predicate `reg == 5` folds to
the concrete `true` and the final tautology filter removes it, so no
single equality predicate is emitted as the claim requires. -/
theorem reg_constraints_concrete_register_empty :
    lookupReg concreteState "a0" = some (BV.bvv 5 32) ∧
    concreteState.solverMin (BV.bvv 5 32) = some 5 ∧
    concreteState.solverMax (BV.bvv 5 32) = some 5 ∧
    reg_constraints concreteState concreteBB = some [] :=
  ⟨rfl, rfl, rfl, rfl⟩

/-- C4 amended: for a register written in the block whose state value is
a symbolic expression (so that no produced predicate folds to a
syntactic tautology), if the solver's feasible minimum equals its
maximum, `reg_constraints` emits the equality predicate
`register == value`; otherwise it emits `minimum <= register`, and emits
`register < maximum` exactly when the maximum is strictly below `2^32`.
(For a concrete register value the produced predicate folds to `true`
and the final tautology filter elides it.) -/
theorem reg_constraints_range_spec (s : SimState) (bb : BasicBlock)
    (r nm : String) (w : Nat) (out : List BoolAst) (mn mx : Nat)
    (hout : reg_constraints s bb = some out)
    (hr : r ∈ bb.regs_written)
    (he : lookupReg s r = some (BV.bvs nm w))
    (hmn : s.solverMin (BV.bvs nm w) = some mn)
    (hmx : s.solverMax (BV.bvs nm w) = some mx) :
    (mn = mx → BoolAst.eqC (BV.bvs nm w) mn ∈ out) ∧
    (mn ≠ mx →
      BoolAst.uleC mn (BV.bvs nm w) ∈ out ∧
      (mx < 2 ^ 32 → BoolAst.ultC (BV.bvs nm w) mx ∈ out) ∧
      (2 ^ 32 ≤ mx → BoolAst.ultC (BV.bvs nm w) mx ∉ out)) := by
  unfold reg_constraints at hout
  cases hloop : reg_constraints_loop s bb.regs_written with
  | none => rw [hloop] at hout; cases hout
  | some out0 =>
    rw [hloop] at hout
    injection hout with hout
    have hmem := reg_constraints_loop_mem s bb.regs_written out0 hloop r hr
      (BV.bvs nm w) mn mx he hmn hmx
    constructor
    · intro hemn
      have hb : bvEq (BV.bvs nm w) mn ∈ regBlock (BV.bvs nm w) mn mx := by
        simp [regBlock, hemn]
      have := hmem _ hb
      rw [← hout]
      exact List.mem_filter.mpr ⟨this, by simp [bvEq, BoolAst.is_true]⟩
    · intro hne
      refine ⟨?_, ?_, ?_⟩
      · have hb : bvUle mn (BV.bvs nm w) ∈ regBlock (BV.bvs nm w) mn mx := by
          simp [regBlock, hne]
        have := hmem _ hb
        rw [← hout]
        exact List.mem_filter.mpr ⟨by simpa [bvUle] using this, by simp [bvUle, BoolAst.is_true]⟩
      · intro hlt
        have hb : bvUlt (BV.bvs nm w) mx ∈ regBlock (BV.bvs nm w) mn mx := by
          unfold regBlock
          rw [if_neg hne, if_pos hlt]
          exact List.mem_cons_of_mem _ (List.mem_singleton.mpr rfl)
        have := hmem _ hb
        rw [← hout]
        exact List.mem_filter.mpr ⟨by simpa [bvUlt] using this, by simp [bvUlt, BoolAst.is_true]⟩
      · intro hge hmem2
        rw [← hout] at hmem2
        have hin0 : BoolAst.ultC (BV.bvs nm w) mx ∈ out0 :=
          (List.mem_filter.mp hmem2).1
        rcases reg_constraints_loop_sources s bb.regs_written out0 hloop _ hin0 with
          ⟨r2, _, e2, mn2, mx2, _, _, hmx2, hbl⟩
        unfold regBlock at hbl
        by_cases hcase : mn2 = mx2
        · rw [if_pos hcase] at hbl
          rcases List.mem_singleton.mp hbl with h
          cases e2 <;> simp [bvEq] at h
        · rw [if_neg hcase] at hbl
          rcases List.mem_cons.mp hbl with h | h
          · cases e2 <;> simp [bvUle] at h
          · by_cases hlt2 : mx2 < 2 ^ 32
            · rw [if_pos hlt2] at h
              have h3 := List.mem_singleton.mp h
              cases e2 with
              | bvv v wv => exact BoolAst.noConfusion h3
              | bvs nm2 w2 =>
                injection h3 with h1 h2
                omega
            · rw [if_neg hlt2] at h
              cases h

/-- Witness for the amended C4: the symbolic register `a0` ranging over
`[1, 10]` yields exactly the lower and upper bound predicates, obtained
through the range theorem. -/
theorem reg_constraints_range_spec_witness :
    BoolAst.uleC 1 (BV.bvs "sa0" 32) ∈
      [BoolAst.uleC 1 (BV.bvs "sa0" 32), BoolAst.ultC (BV.bvs "sa0" 32) 10] ∧
    BoolAst.ultC (BV.bvs "sa0" 32) 10 ∈
      [BoolAst.uleC 1 (BV.bvs "sa0" 32), BoolAst.ultC (BV.bvs "sa0" 32) 10] := by
  have h := reg_constraints_range_spec symRangeState symRangeBB "a0" "sa0" 32
    [BoolAst.uleC 1 (BV.bvs "sa0" 32), BoolAst.ultC (BV.bvs "sa0" 32) 10] 1 10
    rfl (by decide) rfl rfl rfl
  have h2 := h.2 (by decide)
  exact ⟨h2.1, h2.2.1 (by decide)⟩

/-- String append acts as list append on the underlying character data. -/
theorem strDataAppend (s t : String) : (s ++ t).data = s.data ++ t.data := by
  cases s
  cases t
  rfl

/-- The character data of `hexRepr`. -/
theorem hexRepr_data (n : Nat) :
    (hexRepr n).data =
      '0' :: 'x' :: (if n = 0 then ['0'] else (hexDigits n).reverse.map hexChar) := by
  unfold hexRepr
  rw [strDataAppend]
  rfl

/-- Every base-16 digit produced by the fuelled digit extractor is below
16. -/
theorem hexDigitsGo_lt (fuel : Nat) : ∀ n, ∀ d ∈ hexDigitsGo fuel n, d < 16 := by
  induction fuel with
  | zero =>
    intro n d hd
    simp [hexDigitsGo] at hd
  | succ f ih =>
    intro n d hd
    unfold hexDigitsGo at hd
    by_cases hn : n = 0
    · rw [if_pos hn] at hd
      cases hd
    · rw [if_neg hn] at hd
      rcases List.mem_cons.mp hd with h | h
      · rw [h]
        exact Nat.mod_lt n (by norm_num)
      · exact ih (n / 16) d h

/-- Every digit of `hexDigits` is below 16. -/
theorem hexDigits_lt (n : Nat) : ∀ d ∈ hexDigits n, d < 16 :=
  hexDigitsGo_lt n n

/-- `unhex` reconstructs the input of the fuelled digit extractor when
the fuel covers it. -/
theorem unhex_hexDigitsGo (fuel : Nat) : ∀ n, n ≤ fuel → unhex (hexDigitsGo fuel n) = n := by
  induction fuel with
  | zero =>
    intro n h
    have : n = 0 := Nat.le_zero.mp h
    subst this
    rfl
  | succ f ih =>
    intro n h
    by_cases hn : n = 0
    · subst hn
      rfl
    · unfold hexDigitsGo
      rw [if_neg hn]
      have h1 : n / 16 < n := Nat.div_lt_self (Nat.pos_of_ne_zero hn) (by norm_num)
      have h2 : n / 16 ≤ f := by omega
      show n % 16 + 16 * unhex (hexDigitsGo f (n / 16)) = n
      rw [ih (n / 16) h2]
      exact Nat.mod_add_div n 16

/-- `unhex` is a left inverse of `hexDigits`. -/
theorem unhex_hexDigits (n : Nat) : unhex (hexDigits n) = n :=
  unhex_hexDigitsGo n n (Nat.le_refl n)

/-- `hexVal` inverts `hexChar` on digits below 16. -/
theorem hexVal_hexChar (d : Nat) (h : d < 16) : hexVal (hexChar d) = d := by
  interval_cases d <;> rfl

/-- `hexChar` is injective on digits below 16. -/
theorem hexChar_inj (d1 d2 : Nat) (h1 : d1 < 16) (h2 : d2 < 16)
    (he : hexChar d1 = hexChar d2) : d1 = d2 := by
  have e1 := hexVal_hexChar d1 h1
  have e2 := hexVal_hexChar d2 h2
  rw [← e1, ← e2, he]

/-- Mapping `hexChar` over digit lists below 16 is injective. -/
theorem mapHexChar_inj (l1 : List Nat) : ∀ l2 : List Nat,
    (∀ x ∈ l1, x < 16) → (∀ x ∈ l2, x < 16) →
    l1.map hexChar = l2.map hexChar → l1 = l2 := by
  induction l1 with
  | nil =>
    intro l2 _ _ he
    cases l2 with
    | nil => rfl
    | cons b t2 => simp at he
  | cons a t ih =>
    intro l2 hb1 hb2 he
    cases l2 with
    | nil => simp at he
    | cons b t2 =>
      simp only [List.map] at he
      injection he with hh ht
      have hab := hexChar_inj a b (hb1 a (List.mem_cons_self a t))
        (hb2 b (List.mem_cons_self b t2)) hh
      rw [hab, ih t2 (fun x hx => hb1 x (List.mem_cons_of_mem a hx))
        (fun x hx => hb2 x (List.mem_cons_of_mem b hx)) ht]

/-- `hexRepr` is injective at the character-data level: Python's `hex`
gives distinct strings for distinct addresses. -/
theorem hexRepr_data_inj (a b : Nat) (h : (hexRepr a).data = (hexRepr b).data) :
    a = b := by
  rw [hexRepr_data, hexRepr_data] at h
  injection h with h0 h
  injection h with hx h
  by_cases ha : a = 0 <;> by_cases hb : b = 0
  · rw [ha, hb]
  · rw [if_pos ha, if_neg hb] at h
    have hrev : ([0] : List Nat) = (hexDigits b).reverse := by
      apply mapHexChar_inj
      · intro x hx
        simp at hx
        omega
      · intro x hx
        exact hexDigits_lt b x (List.mem_reverse.mp hx)
      · exact h
    have hdig : hexDigits b = [0] := by
      have := congrArg List.reverse hrev
      simpa using this.symm
    have : b = 0 := by
      rw [← unhex_hexDigits b, hdig]
      rfl
    exact absurd this hb
  · rw [if_neg ha, if_pos hb] at h
    have hrev : (hexDigits a).reverse = ([0] : List Nat) := by
      apply mapHexChar_inj
      · intro x hx
        exact hexDigits_lt a x (List.mem_reverse.mp hx)
      · intro x hx
        simp at hx
        omega
      · exact h
    have hdig : hexDigits a = [0] := by
      have := congrArg List.reverse hrev
      simpa using this
    have : a = 0 := by
      rw [← unhex_hexDigits a, hdig]
      rfl
    exact absurd this ha
  · rw [if_neg ha, if_neg hb] at h
    have h2 := mapHexChar_inj (hexDigits a).reverse (hexDigits b).reverse
      (fun x hx => hexDigits_lt a x (List.mem_reverse.mp hx))
      (fun x hx => hexDigits_lt b x (List.mem_reverse.mp hx)) h
    have h3 : hexDigits a = hexDigits b := by
      have := congrArg List.reverse h2
      simpa using this
    rw [← unhex_hexDigits a, ← unhex_hexDigits b, h3]

/-- Address-derived symbol names are distinct across distinct addresses,
whichever of the two section prefixes each carries. -/
theorem hexName_ne (a1 a2 : Nat) (hne : a1 ≠ a2) (q1 q2 : String)
    (h1 : q1 = "data_" ∨ q1 = "bss_") (h2 : q2 = "data_" ∨ q2 = "bss_") :
    q1 ++ hexRepr a1 ≠ q2 ++ hexRepr a2 := by
  intro heq
  have hd := congrArg String.data heq
  rw [strDataAppend, strDataAppend] at hd
  rcases h1 with h1 | h1 <;> rcases h2 with h2 | h2 <;> subst h1 <;> subst h2 <;>
    simp only [show ("data_" : String).data = ['d', 'a', 't', 'a', '_'] from rfl,
      show ("bss_" : String).data = ['b', 's', 's', '_'] from rfl,
      List.cons_append, List.nil_append, List.cons.injEq] at hd
  · exact hne (hexRepr_data_inj a1 a2 (by tauto))
  · tauto
  · tauto
  · exact hne (hexRepr_data_inj a1 a2 (by tauto))

/-- A freshly consed store shadows older stores at the same address and
leaves other addresses unchanged. -/
theorem memLookup_cons (x : Nat) (v : BV) (s : SimState) (a : Nat) :
    memLookup { s with mem := (x, v) :: s.mem } a =
      if x = a then some v else memLookup s a := by
  by_cases h : x = a
  · simp [memLookup, List.find?_cons, h]
  · simp [memLookup, List.find?_cons, h]

/-- Reading memory after storing an address-determined value along a
list of addresses: any address of the list reads back its value (the
stored value depends only on the address, so shadowing is harmless), and
other addresses are untouched. -/
theorem storeFold_lookup (f : Nat → BV) (l : List Nat) (s : SimState) (a : Nat) :
    memLookup (l.foldl (fun st addr => { st with mem := (addr, f addr) :: st.mem }) s) a =
      if a ∈ l then some (f a) else memLookup s a := by
  induction l generalizing s with
  | nil => simp
  | cons x xs ih =>
    rw [List.foldl_cons, ih]
    by_cases hmem : a ∈ xs
    · rw [if_pos hmem, if_pos (List.mem_cons_of_mem x hmem)]
    · rw [if_neg hmem, memLookup_cons]
      by_cases hxa : x = a
      · subst hxa
        rw [if_pos rfl, if_pos (List.mem_cons_self x xs)]
      · rw [if_neg hxa, if_neg (by
          intro hc
          rcases List.mem_cons.mp hc with h | h
          · exact hxa h.symm
          · exact hmem h)]

/-- The section loops only touch memory: every other state component is
preserved. -/
theorem storeFold_preserves (f : Nat → BV) (l : List Nat) (s : SimState) :
    ((l.foldl (fun st addr => { st with mem := (addr, f addr) :: st.mem }) s).regs = s.regs) ∧
    ((l.foldl (fun st addr => { st with mem := (addr, f addr) :: st.mem }) s).solverConstraints = s.solverConstraints) ∧
    ((l.foldl (fun st addr => { st with mem := (addr, f addr) :: st.mem }) s).attrs = s.attrs) ∧
    ((l.foldl (fun st addr => { st with mem := (addr, f addr) :: st.mem }) s).solverMin = s.solverMin) ∧
    ((l.foldl (fun st addr => { st with mem := (addr, f addr) :: st.mem }) s).solverMax = s.solverMax) ∧
    ((l.foldl (fun st addr => { st with mem := (addr, f addr) :: st.mem }) s).solverEval = s.solverEval) := by
  induction l generalizing s with
  | nil => exact ⟨rfl, rfl, rfl, rfl, rfl, rfl⟩
  | cons x xs ih =>
    rw [List.foldl_cons]
    exact ih _

/-- `symbolize_range` reads back the address-named symbol at every
address of the Python range and is the identity elsewhere. -/
theorem symbolize_range_lookup (s : SimState) (pre : String) (lo hi c a : Nat) :
    memLookup (symbolize_range s pre lo hi c) a =
      if a ∈ rangeList lo hi c
      then some (BV.bvs (pre ++ hexRepr a) (c * 8))
      else memLookup s a :=
  storeFold_lookup (fun addr => BV.bvs (pre ++ hexRepr addr) (c * 8)) (rangeList lo hi c) s a

/-- `symbolize_range` preserves every non-memory state component. -/
theorem symbolize_range_preserves (s : SimState) (pre : String) (lo hi c : Nat) :
    ((symbolize_range s pre lo hi c).regs = s.regs) ∧
    ((symbolize_range s pre lo hi c).solverConstraints = s.solverConstraints) ∧
    ((symbolize_range s pre lo hi c).attrs = s.attrs) ∧
    ((symbolize_range s pre lo hi c).solverMin = s.solverMin) ∧
    ((symbolize_range s pre lo hi c).solverMax = s.solverMax) ∧
    ((symbolize_range s pre lo hi c).solverEval = s.solverEval) :=
  storeFold_preserves (fun addr => BV.bvs (pre ++ hexRepr addr) (c * 8)) (rangeList lo hi c) s

/-- C8: with both static sections present, `make_static_memory_symbolic`
raises nothing and stores, at every address stepping by `chunk_size`
through each section, a fresh symbolic value of width `chunk_size * 8`
bits named `bss_<hex-addr>` (for `.bss` addresses) or `data_<hex-addr>`
(for `.data` addresses not overwritten by the later `.bss` loop); names
at distinct addresses are distinct whatever their prefixes, and the
returned state is the mutated input state (every non-memory component
preserved). -/
theorem make_static_memory_symbolic_spec (p : Project) (s : SimState)
    (chunk_size : Nat) (data_section bss_section : Section)
    (_hc : 0 < chunk_size)
    (hd : sectionsMap p ".data" = some data_section)
    (hb : sectionsMap p ".bss" = some bss_section) :
    (make_static_memory_symbolic p s chunk_size).2 = none ∧
    (∀ a ∈ rangeList bss_section.min_addr bss_section.max_addr chunk_size,
      memLookup (make_static_memory_symbolic p s chunk_size).1 a =
        some (BV.bvs ("bss_" ++ hexRepr a) (chunk_size * 8))) ∧
    (∀ a ∈ rangeList data_section.min_addr data_section.max_addr chunk_size,
      a ∉ rangeList bss_section.min_addr bss_section.max_addr chunk_size →
      memLookup (make_static_memory_symbolic p s chunk_size).1 a =
        some (BV.bvs ("data_" ++ hexRepr a) (chunk_size * 8))) ∧
    (∀ a1 a2 : Nat, a1 ≠ a2 → ∀ q1 q2 : String,
      (q1 = "data_" ∨ q1 = "bss_") → (q2 = "data_" ∨ q2 = "bss_") →
      q1 ++ hexRepr a1 ≠ q2 ++ hexRepr a2) ∧
    ((make_static_memory_symbolic p s chunk_size).1.regs = s.regs ∧
     (make_static_memory_symbolic p s chunk_size).1.solverConstraints = s.solverConstraints ∧
     (make_static_memory_symbolic p s chunk_size).1.attrs = s.attrs ∧
     (make_static_memory_symbolic p s chunk_size).1.solverMin = s.solverMin ∧
     (make_static_memory_symbolic p s chunk_size).1.solverMax = s.solverMax ∧
     (make_static_memory_symbolic p s chunk_size).1.solverEval = s.solverEval) := by
  have hred : make_static_memory_symbolic p s chunk_size =
      (symbolize_range
        (symbolize_range s "data_" data_section.min_addr data_section.max_addr chunk_size)
        "bss_" bss_section.min_addr bss_section.max_addr chunk_size, none) := by
    unfold make_static_memory_symbolic
    rw [hd, hb]
  refine ⟨by rw [hred], ?_, ?_, ?_, ?_⟩
  · intro a ha
    rw [hred]
    show memLookup (symbolize_range _ "bss_" _ _ _) a = _
    rw [symbolize_range_lookup, if_pos ha]
  · intro a ha hnb
    rw [hred]
    show memLookup (symbolize_range _ "bss_" _ _ _) a = _
    rw [symbolize_range_lookup, if_neg hnb, symbolize_range_lookup, if_pos ha]
  · exact fun a1 a2 hne q1 q2 h1 h2 => hexName_ne a1 a2 hne q1 q2 h1 h2
  · rw [hred]
    have p1 := symbolize_range_preserves s "data_"
      data_section.min_addr data_section.max_addr chunk_size
    have p2 := symbolize_range_preserves
      (symbolize_range s "data_" data_section.min_addr data_section.max_addr chunk_size)
      "bss_" bss_section.min_addr bss_section.max_addr chunk_size
    exact ⟨p2.1.trans p1.1, p2.2.1.trans p1.2.1, p2.2.2.1.trans p1.2.2.1,
      p2.2.2.2.1.trans p1.2.2.2.1, p2.2.2.2.2.1.trans p1.2.2.2.2.1,
      p2.2.2.2.2.2.trans p1.2.2.2.2.2⟩

/-- Witness for C8: on a project with `.data` = [0, 8) and `.bss` =
[100, 108) and chunk size 4, address 104 reads back the `.bss` symbol
named from its hex representation, address 4 reads back the `.data`
symbol, and the two names are distinct. -/
theorem make_static_memory_symbolic_spec_witness :
    memLookup (make_static_memory_symbolic memProj emptyState 4).1 104 =
      some (BV.bvs ("bss_" ++ hexRepr 104) (4 * 8)) ∧
    memLookup (make_static_memory_symbolic memProj emptyState 4).1 4 =
      some (BV.bvs ("data_" ++ hexRepr 4) (4 * 8)) ∧
    ("data_" ++ hexRepr 4 ≠ "bss_" ++ hexRepr 104) := by
  obtain ⟨h1, h2, h3, h4, h5⟩ := make_static_memory_symbolic_spec memProj emptyState 4
    { min_addr := 0, max_addr := 8 } { min_addr := 100, max_addr := 108 }
    (by decide) rfl rfl
  exact ⟨h2 104 (by decide), h3 4 (by decide) (by decide),
    h4 4 104 (by decide) "data_" "bss_" (Or.inl rfl) (Or.inr rfl)⟩

/-- C10: if the binary lacks the `.data` or the `.bss` section, the
section-map lookup error propagates out of `make_static_memory_symbolic`
(the error component is set) rather than the function returning
normally; both lookups precede any store, so the seed state is returned
untouched. -/
theorem make_static_memory_symbolic_missing_section (p : Project) (s : SimState)
    (chunk_size : Nat)
    (h : sectionsMap p ".data" = none ∨ sectionsMap p ".bss" = none) :
    (make_static_memory_symbolic p s chunk_size).1 = s ∧
    (make_static_memory_symbolic p s chunk_size).2.isSome = true := by
  unfold make_static_memory_symbolic
  cases hdata : sectionsMap p ".data" with
  | none => exact ⟨rfl, rfl⟩
  | some dsec =>
    rcases h with h | h
    · rw [hdata] at h
      cases h
    · rw [h]
      exact ⟨rfl, rfl⟩

/-- Witness for C10: a project without a `.data` section leaves the seed
state unmodified and surfaces an error. -/
theorem make_static_memory_symbolic_missing_section_witness :
    (make_static_memory_symbolic noDataProj emptyState 4).1 = emptyState ∧
    (make_static_memory_symbolic noDataProj emptyState 4).2.isSome = true :=
  make_static_memory_symbolic_missing_section noDataProj emptyState 4 (Or.inl rfl)

/-- C6: when both static sections are present (so the memory symbolizer
that runs first does not raise) and the function's name is absent from
the recovered control-flow graph, `exec_func` does not raise: it returns
a normal, empty result list. -/
theorem exec_func_missing_function (p : Project) (func : Function)
    (data_section bss_section : Section)
    (hd : sectionsMap p ".data" = some data_section)
    (hb : sectionsMap p ".bss" = some bss_section)
    (hn : func.name ∉ p.cfgFunctionNames) :
    exec_func p func = Except.ok [] := by
  have hred : make_static_memory_symbolic p (p.blank_state func.entry_point) 4 =
      (symbolize_range
        (symbolize_range (p.blank_state func.entry_point) "data_"
          data_section.min_addr data_section.max_addr 4)
        "bss_" bss_section.min_addr bss_section.max_addr 4, none) := by
    unfold make_static_memory_symbolic
    rw [hd, hb]
  simp only [exec_func]
  rw [hred]
  simp [hn]

/-- Witness for C6: looking up `helper` in a project whose CFG only
recovered `main` yields the empty result without raising. -/
theorem exec_func_missing_function_witness :
    exec_func lookupProj missingFunc = Except.ok [] :=
  exec_func_missing_function lookupProj missingFunc
    { min_addr := 0, max_addr := 8 } { min_addr := 100, max_addr := 108 }
    rfl rfl (by decide)

/-- C9: when the symbolizer succeeds and the function is found in the
recovered control-flow graph, `exec_func` explores with the loop bound
hard-wired to 5 and the terminal-path cap (`num_find`) hard-wired to
100, and returns, for each found state, that state's full ordered
accumulated solver-constraint sequence. -/
theorem exec_func_bounds_and_results (p : Project) (func : Function)
    (data_section bss_section : Section)
    (hd : sectionsMap p ".data" = some data_section)
    (hb : sectionsMap p ".bss" = some bss_section)
    (hn : func.name ∈ p.cfgFunctionNames) :
    exec_func p func = Except.ok
      ((p.explore (make_static_memory_symbolic p (p.blank_state func.entry_point) 4).1
          p.cfgFunctionNames 5 func.return_addrs 100).map
        (fun s => s.solverConstraints)) := by
  have hred : make_static_memory_symbolic p (p.blank_state func.entry_point) 4 =
      (symbolize_range
        (symbolize_range (p.blank_state func.entry_point) "data_"
          data_section.min_addr data_section.max_addr 4)
        "bss_" bss_section.min_addr bss_section.max_addr 4, none) := by
    unfold make_static_memory_symbolic
    rw [hd, hb]
  simp only [exec_func]
  rw [hred]
  simp [hn]

/-- Witness for C9: the exploration oracle of `exploreProj` returns its
found state only when called with loop bound 5 and path cap 100, so
obtaining the found state's constraint list through `exec_func`
demonstrates exactly those configured bounds. -/
theorem exec_func_bounds_and_results_witness :
    exec_func exploreProj mainFunc = Except.ok [[BoolAst.sym "path_cond"]] := by
  rw [exec_func_bounds_and_results exploreProj mainFunc
    { min_addr := 0, max_addr := 4 } { min_addr := 4, max_addr := 8 }
    rfl rfl (by decide)]
  rfl
